import Mathlib

/-!
Verification of the .NET debug-launch pipeline: solution/project parsing
(`crates/languages/src/csharp.rs`), the dotnet task locator
(`crates/project/src/debugger/locators/dotnet.rs`) and the dotnet debug
adapter (`crates/dap_adapters/src/dotnet.rs`).

Strings are embedded as `List Char`; the Rust `str` primitives used by the
code (`trim`, `split`, `find`, `lines`, `starts_with`, `trim_matches`,
`ends_with`) are given explicit executable models below.  The filesystem and
the spawned build process are oracles passed as explicit parameters.
-/

namespace DotnetPipeline

/-- Characters of a string literal. -/
def s2l (s : String) : List Char := s.data

/-- ASCII whitespace, the model of Rust `char::is_whitespace` for the
inputs at hand. -/
def isWsp (c : Char) : Bool := c = ' ' ∨ c = '\t' ∨ c = '\r' ∨ c = '\n'

/-- Model of Rust `str::trim_start`. -/
def trimLeftW (s : List Char) : List Char := s.dropWhile isWsp

/-- Model of Rust `str::trim_end`. -/
def trimRightW (s : List Char) : List Char := (s.reverse.dropWhile isWsp).reverse

/-- Model of Rust `str::trim`. -/
def trimW (s : List Char) : List Char := trimRightW (trimLeftW s)

/-- Model of Rust `str::trim_matches(c)`: strip every leading and trailing
occurrence of `c`. -/
def trimMatchesChar (c : Char) (s : List Char) : List Char :=
  ((s.dropWhile (fun x => x = c)).reverse.dropWhile (fun x => x = c)).reverse

/-- Model of Rust `str::split(c)`: the list of chunks between occurrences of
`c`; always nonempty. -/
def splitOnChar (c : Char) : List Char → List (List Char)
  | [] => [[]]
  | x :: xs =>
    if x = c then [] :: splitOnChar c xs
    else
      match splitOnChar c xs with
      | [] => [[x]]
      | h :: t => (x :: h) :: t

/-- Model of Rust `str::find(char)`. -/
def findChar (c : Char) : List Char → Option Nat
  | [] => none
  | x :: xs => if x = c then some 0 else (findChar c xs).map (· + 1)

/-- Model of Rust `str::find(&str)`: byte index of the first occurrence of
`pat`. -/
def findSub (pat : List Char) : List Char → Option Nat
  | [] => if pat.isEmpty then some 0 else none
  | c :: rest =>
    if pat.isPrefixOf (c :: rest) then some 0 else (findSub pat rest).map (· + 1)

/-- Model of Rust `str::contains(&str)`. -/
def containsSub (pat s : List Char) : Bool := (findSub pat s).isSome

/-- Model of Rust `str::ends_with(&str)`. -/
def endsWithL (pat s : List Char) : Bool := pat.isSuffixOf s

/-- Strip one trailing carriage return, as Rust `str::lines` does. -/
def stripCR (l : List Char) : List Char :=
  if l.getLast? = some '\r' then l.dropLast else l

/-- Drop a final empty chunk of a split, as Rust `str::lines` does for a
trailing newline (or empty input). -/
def dropTrailingEmpty (parts : List (List Char)) : List (List Char) :=
  match parts.getLast? with
  | some [] => parts.dropLast
  | _ => parts

/-- Model of Rust `str::lines`: split on `'\n'`, drop a final empty chunk
(produced by a trailing newline or by empty input), strip a trailing
`'\r'` from every line. -/
def linesOf (s : List Char) : List (List Char) :=
  (dropTrailingEmpty (splitOnChar '\n' s)).map stripCR

/-- Model of `Path::join` for a relative right-hand side (POSIX). -/
def pathJoin (base p : List Char) : List Char :=
  if base = [] then p
  else if base.getLast? = some '/' then base ++ p
  else base ++ '/' :: p

/-- Model of `Path::is_absolute` (POSIX). -/
def isAbsL (p : List Char) : Bool := p.head? = some '/'

/-! ## Data model (`crates/languages/src/csharp.rs`) -/

/-- `NuGetPackage`: a NuGet package reference. -/
structure NuGetPackage where
  id : List Char
  version : Option (List Char)
deriving DecidableEq, Repr

/-- `SolutionProject`: one project of a .NET solution. -/
structure SolutionProject where
  name : List Char
  path : List Char
  guid : List Char
  type_guid : List Char
  packages : List NuGetPackage
deriving DecidableEq, Repr

/-- `SolutionFile`: a parsed .NET solution. -/
structure SolutionFile where
  path : List Char
  projects : List SolutionProject
  configurations : List (List Char)
  startup_project : Option (List Char)
deriving DecidableEq, Repr

/-- `extract_guid`: the text between the first `\x7b` and the next `\x7d`
of a line. -/
def extract_guid (line : List Char) : Option (List Char) :=
  match findChar '\x7b' line with
  | none => none
  | some s =>
    match findChar '\x7d' (line.drop s) with
    | none => none
    | some e => some (((line.drop (s + 1)).take (e - 1)))

/-- `parse_project_line`: parse one
`Project("\x7btype-guid\x7d") = "name", "path", "\x7bguid\x7d"` line. -/
def parse_project_line (line : List Char) : Option SolutionProject :=
  match extract_guid line with
  | none => none
  | some type_guid =>
    match (splitOnChar '=' line).get? 1 with
    | none => none
    | some after_equals =>
      let parts := (splitOnChar ',' after_equals).map
        (fun s => trimMatchesChar '"' (trimW s))
      match parts with
      | name :: path :: guid :: _ =>
        some { name := name, path := path, guid := guid,
               type_guid := type_guid, packages := [] }
      | _ => none

/-- One iteration of the `parse_sln` line loop, acting on the state
`(projects, configurations, startup_project)`. -/
def slnStep (st : List SolutionProject × List (List Char) × Option (List Char))
    (rawLine : List Char) :
    List SolutionProject × List (List Char) × Option (List Char) :=
  let line := trimW rawLine
  let st1 :=
    if (s2l "Project(\"").isPrefixOf line then
      match parse_project_line line with
      | some p => (st.1 ++ [p], st.2.1, st.2.2)
      | none => st
    else st
  let st2 :=
    if (s2l "Debug|").isPrefixOf line || (s2l "Release|").isPrefixOf line then
      match (splitOnChar '|' line).head? with
      | some cfg =>
        if st1.2.1.contains cfg then st1 else (st1.1, st1.2.1 ++ [cfg], st1.2.2)
      | none => st1
    else st1
  if containsSub (s2l "StartupProject") line then
    match extract_guid line with
    | some g => (st2.1, st2.2.1, some g)
    | none => st2
  else st2

/-- `SolutionFile::parse_sln`: parse the legacy line dialect.  The Rust
function returns `Result` but never fails. -/
def parse_sln (content base : List Char) : SolutionFile :=
  let st := (linesOf content).foldl slnStep ([], [], none)
  let startup :=
    match st.2.2, st.1 with
    | none, p :: _ => some p.guid
    | s, _ => s
  { path := pathJoin base (s2l "solution.sln"),
    projects := st.1,
    configurations :=
      match st.2.1 with
      | [] => [s2l "Debug", s2l "Release"]
      | cs => cs,
    startup_project := startup }

/-- Rust `Path::file_stem` with `unwrap_or("Unknown")`, as used by
`parse_slnx` to derive a project name from its path. -/
def fileStemOf (p : List Char) : List Char :=
  match ((splitOnChar '/' p).filter (fun c => c ≠ [])).getLast? with
  | none => s2l "Unknown"
  | some base =>
    match findChar '.' base.reverse with
    | none => base
    | some j =>
      let i := base.length - 1 - j
      if i = 0 then base else base.take i

/-- Extraction of one project from a `<Project ...>` opening tag in the
`.slnx` dialect; `hg` models `DefaultHasher`-based GUID synthesis (the
hasher is a platform primitive, abstracted as a parameter). -/
def slnxProjOf (hg : List Char → List Char) (tag : List Char) :
    Option SolutionProject :=
  match findSub (s2l "Path=\"") tag with
  | none => none
  | some i0 =>
    let pstart := i0 + 6
    match findChar '"' (tag.drop pstart) with
    | none => none
    | some pend =>
      let pathStr := (tag.drop pstart).take pend
      some { name := fileStemOf pathStr, path := pathStr,
             guid := hg pathStr,
             type_guid := s2l "FAE04EC0-301F-11D3-BA7A-00C04FC2CCAE",
             packages := [] }

/-- The `parse_slnx` scan loop, fuelled (each iteration strictly shortens
the remaining input, so `length + 1` fuel always suffices). -/
def slnxLoop (hg : List Char → List Char) :
    Nat → List Char → Except (List Char) (List SolutionProject)
  | 0, _ => .error (s2l "fuel exhausted")
  | fuel + 1, rem =>
    match findSub (s2l "<Project") rem with
    | none => .ok []
    | some ps =>
      match findSub (s2l ">") (rem.drop ps) with
      | none => .error (s2l "Invalid XML: unclosed Project tag")
      | some pe =>
        let tag := (rem.drop ps).take (pe + 1)
        match slnxLoop hg fuel (rem.drop (ps + pe + 1)) with
        | .error e => .error e
        | .ok more => .ok ((slnxProjOf hg tag).toList ++ more)

/-- `SolutionFile::parse_slnx`: parse the XML-ish dialect. -/
def parse_slnx (hg : List Char → List Char) (content base : List Char) :
    Except (List Char) SolutionFile :=
  match slnxLoop hg (content.length + 1) content with
  | .error e => .error e
  | .ok projects =>
    let startup :=
      match projects with
      | p :: _ => some p.guid
      | [] => none
    .ok { path := pathJoin base (s2l "solution.slnx"),
          projects := projects,
          configurations := [s2l "Debug", s2l "Release"],
          startup_project := startup }

/-- `SolutionFile::parse`: dialect sniffing, then dispatch. -/
def parse (hg : List Char → List Char) (content base : List Char) :
    Except (List Char) SolutionFile :=
  if (s2l "<?xml").isPrefixOf (trimLeftW content)
      || (s2l "<Solution").isPrefixOf (trimLeftW content) then
    parse_slnx hg content base
  else
    .ok (parse_sln content base)

/-- `SolutionFile::get_project_by_guid`. -/
def get_project_by_guid (sol : SolutionFile) (guid : List Char) :
    Option SolutionProject :=
  sol.projects.find? (fun p => p.guid == guid)

/-- `SolutionFile::get_startup_project`. -/
def get_startup_project (sol : SolutionFile) : Option SolutionProject :=
  sol.startup_project.bind (get_project_by_guid sol)

/-- `SolutionFile::get_executable_projects`. -/
def get_executable_projects (sol : SolutionFile) : List SolutionProject :=
  sol.projects.filter (fun p => ¬ containsSub (s2l "Test") p.name)

/-! ## Package-reference parsing (`parse_csproj_packages`) -/

/-- Extraction of one attribute value: find `marker`, skip it, take up to
the next `'"'`. -/
def attrValOf (marker tag : List Char) : Option (List Char) :=
  match findSub marker tag with
  | none => none
  | some i =>
    let st := i + marker.length
    match findChar '"' (tag.drop st) with
    | none => none
    | some e => some ((tag.drop st).take e)

/-- One `<PackageReference ...` entry: `Include` attribute mandatory
(entry skipped otherwise), `Version` optional. -/
def pkgOfTag (tag : List Char) : Option NuGetPackage :=
  match attrValOf (s2l "Include=\"") tag with
  | none => none
  | some id => some { id := id, version := attrValOf (s2l "Version=\"") tag }

/-- Terminator choice of `parse_csproj_packages` as written:
`find("/>").or_else(|| find("</PackageReference>"))`. -/
def findTerminatorCsproj (sub : List Char) : Option Nat :=
  match findSub (s2l "/>") sub with
  | some e => some e
  | none => findSub (s2l "</PackageReference>") sub

/-- The `parse_csproj_packages` scan loop, parameterised by the terminator
choice and fuelled (each iteration strictly shortens the remaining input,
so `length + 1` fuel always suffices). -/
def csprojScan (term : List Char → Option Nat) :
    Nat → List Char → Except (List Char) (List NuGetPackage)
  | 0, _ => .error (s2l "fuel exhausted")
  | fuel + 1, rem =>
    match findSub (s2l "<PackageReference") rem with
    | none => .ok []
    | some rs =>
      match term (rem.drop rs) with
      | none => .error (s2l "Invalid XML: unclosed PackageReference tag")
      | some re =>
        let tag := (rem.drop rs).take (re + 2)
        match csprojScan term fuel (rem.drop (rs + re + 2)) with
        | .error e => .error e
        | .ok more => .ok ((pkgOfTag tag).toList ++ more)

/-- `parse_csproj_packages`. -/
def parse_csproj_packages (content : List Char) :
    Except (List Char) (List NuGetPackage) :=
  csprojScan findTerminatorCsproj (content.length + 1) content

/-! ## Task locator (`crates/project/src/debugger/locators/dotnet.rs`) -/

/-- A directory entry as seen through `std::fs::read_dir`. -/
structure FsEntry where
  name : List Char
  isFile : Bool
deriving DecidableEq

/-- The filesystem oracle: which paths exist, and directory listings. -/
structure Fs where
  fileExists : List Char → Bool
  readDir : List Char → Option (List FsEntry)

/-- The arrow-line heuristic of `find_dotnet_output_assembly`, applied to a
single stdout line: text after the first `"->"`, trimmed, accepted when it
ends in `.dll`/`.exe`, resolved against `cwd` when relative, and kept only
when it exists on disk. -/
def arrowCandidate (fs : Fs) (cwd line : List Char) : Option (List Char) :=
  match findSub (s2l "->") line with
  | none => none
  | some i =>
    let assembly_part := trimW (line.drop (i + 2))
    if endsWithL (s2l ".dll") assembly_part
        || endsWithL (s2l ".exe") assembly_part then
      let absolute_path :=
        if isAbsL assembly_part then assembly_part
        else pathJoin cwd assembly_part
      if fs.fileExists absolute_path then some absolute_path else none
    else none

/-- The fixed fallback output directories probed by
`find_dotnet_output_assembly`, in source order. -/
def fallbackDirs (cwd : List Char) : List (List Char) :=
  [pathJoin cwd (s2l "bin/Debug"),
   pathJoin cwd (s2l "bin/Release"),
   pathJoin cwd (s2l "bin/Debug/net6.0"),
   pathJoin cwd (s2l "bin/Debug/net5.0"),
   pathJoin cwd (s2l "bin/Debug/net8.0"),
   pathJoin cwd (s2l "bin/Release/net6.0"),
   pathJoin cwd (s2l "bin/Release/net5.0"),
   pathJoin cwd (s2l "bin/Release/net8.0")]

/-- The first `.dll` file of one fallback directory, in enumeration
order. -/
def dirHit (fs : Fs) (dir : List Char) : Option (List Char) :=
  match fs.readDir dir with
  | none => none
  | some entries =>
    entries.findSome? (fun e =>
      if endsWithL (s2l ".dll") e.name && e.isFile then
        some (pathJoin dir e.name)
      else none)

/-- `find_dotnet_output_assembly`: arrow-line scan over stdout, then the
fallback directory probe, else an error carrying the full stdout. -/
def find_dotnet_output_assembly (fs : Fs) (output cwd : List Char) :
    Except (List Char) (List Char) :=
  match (linesOf output).findSome? (arrowCandidate fs cwd) with
  | some p => .ok p
  | none =>
    match (fallbackDirs cwd).findSome? (dirHit fs) with
    | some p => .ok p
    | none =>
      .error (s2l "Could not find compiled assembly in dotnet build output.\nBuild output was:\n"
        ++ output)

/-- Decimal rendering of `Option i32` in Rust `\x7b:?\x7d` style, used by the
build-failure message. -/
def fmtExitCode : Option Int → List Char
  | none => s2l "None"
  | some i =>
    s2l "Some(" ++
      (if i < 0 then '-' :: Nat.toDigits 10 i.natAbs else Nat.toDigits 10 i.natAbs)
      ++ s2l ")"

/-- The task template of the locator and of `create_scenario`
(`task::TaskTemplate`; the fields the code touches, plus the remaining
data-carrying fields). -/
structure TaskTemplateM where
  label : List Char
  command : List Char
  args : List (List Char)
  env : List (List Char × List Char)
  cwd : Option (List Char)
deriving DecidableEq

/-- The resolved task handed to `run()` (`task::SpawnInTerminal`; the
fields the code reads). -/
structure SpawnInTerminalM where
  cwd : Option (List Char)
  args : List (List Char)
  env : List (List Char × List Char)
deriving DecidableEq

/-- Captured outcome of a spawned build process. -/
structure ProcOut where
  success : Bool
  exitCode : Option Int
  stdout : List Char
  stderr : List Char

/-- Final argument list of the build invocation: template arguments up to
the first literal `"--"`, then the three injected flags.  `ShellBuilder`
is modelled as the identity on (program, args). -/
def buildArgs (args : List (List Char)) : List (List Char) :=
  (args.takeWhile (fun a => a ≠ s2l "--"))
    ++ [s2l "--no-restore", s2l "/p:GenerateFullPaths=true", s2l "-v:q"]

/-- `dap::DebugRequest`. -/
inductive DebugRequest where
  | launch (program : List Char) (cwd : Option (List Char))
      (args : List (List Char)) (env : List (List Char × List Char))
  | attach (processId : Option Nat)
deriving DecidableEq

/-- `DotNetLocator::run`: require a working directory, spawn the rebuilt
build invocation (`spawn` is the process oracle, keyed by the argument
list), drain both streams, fail with captured stderr on non-zero exit,
else recover the artifact path and emit the launch request. -/
def runLocator (fs : Fs) (spawn : List (List Char) → Option ProcOut)
    (task : SpawnInTerminalM) : Except (List Char) DebugRequest :=
  match task.cwd with
  | none => .error (s2l "Working directory required for dotnet build")
  | some cwd =>
    match spawn (buildArgs task.args) with
    | none => .error (s2l "Failed to spawn dotnet build")
    | some pr =>
      if pr.success then
        match find_dotnet_output_assembly fs pr.stdout cwd with
        | .error e => .error e
        | .ok dll => .ok (.launch dll (some cwd) [] [])
      else
        .error (s2l "dotnet build failed with exit code " ++ fmtExitCode pr.exitCode
          ++ s2l "\nstderr: " ++ pr.stderr)

/-- The awaited phases of `run()`, in the order the code awaits them: the
body is straight-line `await`s with no join/race combinator, so each phase
completes before the next begins. -/
inductive RunPhase where
  | spawnBuild
  | drainStdoutToEof
  | drainStderrToEof
  | awaitExitStatus
deriving DecidableEq

/-- The sequential await order of `run()`'s process handling, transcribed
from the body: stdout is read to EOF, then stderr, then the exit status is
awaited. -/
def runAwaitSequence : List RunPhase :=
  [.spawnBuild, .drainStdoutToEof, .drainStderrToEof, .awaitExitStatus]

/-- The minimal launch-request configuration stub placed by
`create_scenario`: `json!(\x7b"type": "coreclr", "request": "launch"\x7d)`,
as an association list. -/
def scenarioConfigStub : List (List Char × List Char) :=
  [(s2l "type", s2l "coreclr"), (s2l "request", s2l "launch")]

/-- `task::DebugScenario`, as emitted by `create_scenario`. -/
structure DebugScenarioM where
  adapter : List Char
  label : List Char
  buildTemplate : Option (TaskTemplateM × Option (List Char))
  config : List (List Char × List Char)
  tcpConnection : Option Unit
deriving DecidableEq

/-- `DotNetLocator::create_scenario`: accept only `dotnet` templates whose
first argument is `run`/`r` (rewritten in place to `build`), `build`, or
`test` with a literal `--no-build` flag already present. -/
def create_scenario (t : TaskTemplateM) (resolvedLabel adapter : List Char) :
    Option DebugScenarioM :=
  if t.command ≠ s2l "dotnet" then none
  else
    match t.args with
    | [] => none
    | dotnet_action :: rest =>
      let newArgs : Option (List (List Char)) :=
        if dotnet_action = s2l "run" ∨ dotnet_action = s2l "r" then
          some (s2l "build" :: rest)
        else if dotnet_action = s2l "test" then
          if (dotnet_action :: rest).contains (s2l "--no-build") then
            some (dotnet_action :: rest)
          else none
        else if dotnet_action = s2l "build" then
          some (dotnet_action :: rest)
        else none
      match newArgs with
      | none => none
      | some args =>
        some { adapter := adapter,
               label := resolvedLabel,
               buildTemplate := some ({ t with args := args }, some (s2l "dotnet-locator")),
               config := scenarioConfigStub,
               tcpConnection := none }

/-! ## Debug adapter (`crates/dap_adapters/src/dotnet.rs`) -/

/-- A JSON value, as far as the adapter code inspects one. -/
inductive JVal where
  | str (s : List Char)
  | num (n : Int)
  | bool (b : Bool)
  | null
deriving DecidableEq

/-- A JSON object: an association list with unique keys. -/
abbrev Cfg : Type := List (List Char × JVal)

/-- Object field lookup (`Value::get`). -/
def getK (m : Cfg) (k : List Char) : Option JVal :=
  (m.find? (fun kv => kv.1 == k)).map (fun kv => kv.2)

/-- `Value::as_str`. -/
def asStr? : Option JVal → Option (List Char)
  | some (.str s) => some s
  | _ => none

/-- `dap::StartDebuggingRequestArgumentsRequest`. -/
inductive RequestKind where
  | launch
  | attach
deriving DecidableEq

/-- The request kind resolved by `request_args`: attach exactly when the
map's `request` field is the string `attach`. -/
def requestKindOf (m : Cfg) : RequestKind :=
  if asStr? (getK m (s2l "request")) = some (s2l "attach") then .attach
  else .launch

/-- `DotNetDebugAdapter::request_args`: default the console, then require
`program` for launch requests. -/
def request_args (m : Cfg) : Except (List Char) (Cfg × RequestKind) :=
  let request := requestKindOf m
  let configuration : Cfg :=
    if (getK m (s2l "console")).isNone then
      m ++ [(s2l "console", .str (s2l "integratedTerminal"))]
    else m
  if request = .launch ∧ getK configuration (s2l "program") = none then
    .error (s2l "'program' is required for launch requests")
  else
    .ok (configuration, request)

/-- One call of `DotNetDebugAdapter::vsdbg_path` against the `OnceCell`
state: `cell` is the cell's content, `fetch` the outcome `fetch_vsdbg`
would produce on this call.  Returns the call result, the new cell content,
and whether the probe chain ran. -/
def vsdbgStep (cell : Option (List Char)) (fetch : Except (List Char) (List Char)) :
    Except (List Char) (List Char) × Option (List Char) × Bool :=
  match cell with
  | some p => (.ok p, some p, false)
  | none =>
    match fetch with
    | .ok p => (.ok p, some p, true)
    | .error e => (.error e, none, true)

/-- A sequence of `vsdbg_path` calls on one adapter instance, each with its
own probe outcome; returns each call's (result, probed) pair and the final
cell content. -/
def vsdbgCalls : Option (List Char) → List (Except (List Char) (List Char)) →
    List (Except (List Char) (List Char) × Bool) × Option (List Char)
  | cell, [] => ([], cell)
  | cell, f :: fsRest =>
    let r := vsdbgStep cell f
    let rest := vsdbgCalls r.2.1 fsRest
    ((r.1, r.2.2) :: rest.1, rest.2)

/-! ## Spec-side definitions

Definitions below follow the words of the specification (not the source),
for comparison against the source-derived definitions above. -/

/-- Modelled from the spec: the dependency-entry terminator is "the nearer
of a self-closing marker or an explicit closing tag" after the opening
tag. -/
def nearerTerminator (sub : List Char) : Option Nat :=
  match findSub (s2l "/>") sub, findSub (s2l "</PackageReference>") sub with
  | some a, some b => some (min a b)
  | some a, none => some a
  | none, some b => some b
  | none, none => none

/-- Terminator choice named by the amended claim: the first self-closing
marker whenever one occurs anywhere after the opening tag, else the first
explicit closing tag. -/
def selfCloseElseClosing (sub : List Char) : Option Nat :=
  if (findSub (s2l "/>") sub).isSome then findSub (s2l "/>") sub
  else findSub (s2l "</PackageReference>") sub

/-- A canonical well-formed legacy project-declaration line
`Project("\x7bT\x7d") = "N", "P", "\x7bG\x7d"`, built from its four
tokens. -/
def mkProjLine (tG nm pth gd : List Char) : List Char :=
  ['P', 'r', 'o', 'j', 'e', 'c', 't', '(', '"', '\x7b'] ++ tG
    ++ ['\x7d', '"', ')', ' ', '=', ' ', '"'] ++ nm
    ++ ['"', ',', ' ', '"'] ++ pth
    ++ ['"', ',', ' ', '"', '\x7b'] ++ gd ++ ['\x7d', '"']

/-- Token admissible inside a canonical declaration line: free of the
structural characters the line scanner keys on. -/
def okTok (s : List Char) : Bool :=
  s.all (fun c =>
    ¬ (c = '"' ∨ c = ',' ∨ c = '=' ∨ c = '\x7b' ∨ c = '\x7d' ∨ c = '\n' ∨ c = '\r'))

/-- One line of a legacy solution text: either a canonical project
declaration (given by its four tokens) or any other line. -/
inductive SlnLine where
  | decl (tG nm pth gd : List Char)
  | other (l : List Char)

/-- The rendered text of one solution line. -/
def renderLine : SlnLine → List Char
  | .decl tG nm pth gd => mkProjLine tG nm pth gd
  | .other l => l

/-- Admissibility of one solution line: declaration tokens are admissible;
other lines hold no newline and are not project declarations. -/
def lineOk : SlnLine → Bool
  | .decl tG nm pth gd => okTok tG && okTok nm && okTok pth && okTok gd
  | .other l =>
    l.all (fun c => ¬ (c = '\n' ∨ c = '\r'))
      && ¬ (s2l "Project(\"").isPrefixOf (trimW l)

/-- The project a canonical declaration line denotes, with the stored
identifier keeping its surrounding braces as `parse_project_line` does. -/
def declProject : SlnLine → Option SolutionProject
  | .decl tG nm pth gd =>
    some { name := nm, path := pth, guid := '\x7b' :: gd ++ ['\x7d'],
           type_guid := tG, packages := [] }
  | .other _ => none

/-- Join lines with newlines, the inverse of `linesOf` for admissible
lines. -/
def joinNL (ls : List (List Char)) : List Char :=
  match ls with
  | [] => []
  | [l] => l
  | l :: rest => l ++ '\n' :: joinNL rest

/-! ## Helper lemmas: string primitives -/

theorem splitOnChar_ne_nil (c : Char) (s : List Char) : splitOnChar c s ≠ [] := by
  cases s with
  | nil => simp [splitOnChar]
  | cons x xs =>
    simp only [splitOnChar]
    split
    · simp
    · split <;> simp_all

theorem splitOnChar_no (c : Char) (a : List Char) (h : ∀ x ∈ a, x ≠ c) :
    splitOnChar c a = [a] := by
  induction a with
  | nil => rfl
  | cons x xs ih =>
    have hx : x ≠ c := h x (by simp)
    have ih' := ih (fun y hy => h y (by simp [hy]))
    simp [splitOnChar, hx, ih']

theorem splitOnChar_first (c : Char) (a b : List Char) (h : ∀ x ∈ a, x ≠ c) :
    splitOnChar c (a ++ c :: b) = a :: splitOnChar c b := by
  induction a with
  | nil => simp [splitOnChar]
  | cons x xs ih =>
    have hx : x ≠ c := h x (by simp)
    have ih' := ih (fun y hy => h y (by simp [hy]))
    simp [splitOnChar, hx, ih']

theorem findChar_first (c : Char) (a b : List Char) (h : ∀ x ∈ a, x ≠ c) :
    findChar c (a ++ c :: b) = some a.length := by
  induction a with
  | nil => simp [findChar]
  | cons x xs ih =>
    have hx : x ≠ c := h x (by simp)
    have ih' := ih (fun y hy => h y (by simp [hy]))
    simp [findChar, hx, ih']

theorem extract_guid_mk (a t b : List Char) (ha : ∀ x ∈ a, x ≠ '\x7b')
    (ht : ∀ x ∈ t, x ≠ '\x7d') :
    extract_guid (a ++ '\x7b' :: (t ++ '\x7d' :: b)) = some t := by
  have h1 : findChar '\x7b' (a ++ '\x7b' :: (t ++ '\x7d' :: b)) = some a.length :=
    findChar_first _ a _ ha
  have h2 : (a ++ '\x7b' :: (t ++ '\x7d' :: b)).drop a.length = '\x7b' :: (t ++ '\x7d' :: b) :=
    List.drop_left a _
  have h5 : findChar '\x7d' (t ++ '\x7d' :: b) = some t.length := findChar_first _ t b ht
  have h3 : findChar '\x7d' ('\x7b' :: (t ++ '\x7d' :: b)) = some (t.length + 1) := by
    simp only [findChar]
    rw [if_neg (by decide), h5]
    rfl
  have h4 : (a ++ '\x7b' :: (t ++ '\x7d' :: b)).drop (a.length + 1) = t ++ '\x7d' :: b := by
    have e : a ++ '\x7b' :: (t ++ '\x7d' :: b) = (a ++ ['\x7b']) ++ (t ++ '\x7d' :: b) := by
      simp
    have e2 : (a ++ ['\x7b']).length = a.length + 1 := by simp
    rw [e, ← e2, List.drop_left]
  unfold extract_guid
  simp only [h1, h2, h3, h4]
  simp [List.take_left]

theorem dropWhile_all_false (p : Char → Bool) (l : List Char)
    (h : ∀ x ∈ l, p x = false) : l.dropWhile p = l := by
  cases l with
  | nil => rfl
  | cons a as => simp [List.dropWhile_cons, h a (by simp)]

theorem trimRightW_append_of (s : List Char) (c : Char) (h : isWsp c = false) :
    trimRightW (s ++ [c]) = s ++ [c] := by
  simp [trimRightW, List.dropWhile_cons, h]

theorem trimMatchesQ (inner : List Char) (h : ∀ x ∈ inner, x ≠ '"') :
    trimMatchesChar '"' ('"' :: inner ++ ['"']) = inner := by
  cases inner with
  | nil => rfl
  | cons n ns =>
    have hall : ∀ x ∈ (n :: ns).reverse, (decide (x = '"')) = false := by
      intro x hx
      exact decide_eq_false (h x (List.mem_reverse.mp hx))
    have hleft : ((('"' :: (n :: ns)) ++ ['"']).dropWhile (fun x => x = '"'))
        = (n :: ns) ++ ['"'] := by
      simp only [List.cons_append, List.dropWhile_cons]
      rw [if_pos (by decide), if_neg (by simp [h n (by simp)])]
    have hrev : ((n :: ns) ++ ['"']).reverse = '"' :: (n :: ns).reverse := by simp
    calc trimMatchesChar '"' ('"' :: (n :: ns) ++ ['"'])
        = ((((n :: ns) ++ ['"']).reverse.dropWhile (fun x => x = '"')).reverse) := by
          unfold trimMatchesChar
          rw [hleft]
      _ = n :: ns := by
          rw [hrev]
          simp only [List.dropWhile_cons]
          rw [if_pos (by decide), dropWhile_all_false _ _ hall]
          simp

theorem okTok_spec (s : List Char) (h : okTok s = true) :
    ∀ c ∈ s, c ≠ '"' ∧ c ≠ ',' ∧ c ≠ '=' ∧ c ≠ '\x7b' ∧ c ≠ '\x7d' ∧ c ≠ '\n' ∧ c ≠ '\r' := by
  intro c hc
  have h2 := (List.all_eq_true.mp h) c hc
  simp only [decide_eq_true_eq] at h2
  push_neg at h2
  exact h2

theorem stripCR_of (l : List Char) (h : ∀ c ∈ l, c ≠ '\r') : stripCR l = l := by
  unfold stripCR
  split
  case isTrue h2 =>
    have hm : '\r' ∈ l.getLast? := by rw [h2]; rfl
    obtain ⟨hne, he⟩ := List.mem_getLast?_eq_getLast hm
    exact absurd rfl (h '\r' (he ▸ List.getLast_mem hne))
  case isFalse => rfl

theorem mem_all_ne (A : List Char) (c : Char) (hA : A.all (fun x => ¬ x = c) = true) :
    ∀ x ∈ A, x ≠ c := fun x hx => by simpa using (List.all_eq_true.mp hA x hx)

theorem forall_ne_append (c : Char) (l1 l2 : List Char) (h1 : ∀ x ∈ l1, x ≠ c)
    (h2 : ∀ x ∈ l2, x ≠ c) : ∀ x ∈ l1 ++ l2, x ≠ c :=
  fun x hx => (List.mem_append.mp hx).elim (h1 x) (h2 x)

theorem trimLeftW_cons_of (c : Char) (s : List Char) (h : isWsp c = false) :
    trimLeftW (c :: s) = c :: s := by
  unfold trimLeftW
  rw [List.dropWhile_cons, if_neg (by simp [h])]

theorem trim_part_q (t : List Char) (h : ∀ x ∈ t, x ≠ '"') :
    trimMatchesChar '"' (trimW ([' ', '"'] ++ t ++ ['"'])) = t := by
  have hL : trimLeftW ([' ', '"'] ++ t ++ ['"']) = '"' :: (t ++ ['"']) := by
    have e : [' ', '"'] ++ t ++ ['"'] = ' ' :: '"' :: (t ++ ['"']) := by simp
    rw [e]
    unfold trimLeftW
    rw [List.dropWhile_cons, if_pos (by decide), List.dropWhile_cons,
      if_neg (by decide)]
  have hR : trimRightW ('"' :: (t ++ ['"'])) = '"' :: (t ++ ['"']) := by
    have e : '"' :: (t ++ ['"']) = ('"' :: t) ++ ['"'] := by simp
    rw [e, trimRightW_append_of _ _ (by decide)]
  unfold trimW
  rw [hL, hR]
  have e : ('"' : Char) :: (t ++ ['"']) = '"' :: t ++ ['"'] := by simp
  rw [e, trimMatchesQ t h]

theorem trimW_mkProjLine (tG nm pth gd : List Char) :
    trimW (mkProjLine tG nm pth gd) = mkProjLine tG nm pth gd := by
  have hL : trimLeftW (mkProjLine tG nm pth gd) = mkProjLine tG nm pth gd := by
    have e : mkProjLine tG nm pth gd
        = 'P' :: (['r', 'o', 'j', 'e', 'c', 't', '(', '"', '\x7b'] ++ tG
            ++ ['\x7d', '"', ')', ' ', '=', ' ', '"'] ++ nm
            ++ ['"', ',', ' ', '"'] ++ pth
            ++ ['"', ',', ' ', '"', '\x7b'] ++ gd ++ ['\x7d', '"']) := by
      simp [mkProjLine]
    rw [e, trimLeftW_cons_of _ _ (by decide)]
  have hR : trimRightW (mkProjLine tG nm pth gd) = mkProjLine tG nm pth gd := by
    have e : mkProjLine tG nm pth gd
        = (['P', 'r', 'o', 'j', 'e', 'c', 't', '(', '"', '\x7b'] ++ tG
            ++ ['\x7d', '"', ')', ' ', '=', ' ', '"'] ++ nm
            ++ ['"', ',', ' ', '"'] ++ pth
            ++ ['"', ',', ' ', '"', '\x7b'] ++ gd ++ ['\x7d']) ++ ['"'] := by
      simp [mkProjLine]
    rw [e, trimRightW_append_of _ _ (by decide), ← e]
  unfold trimW
  rw [hL, hR]

theorem startsWith_mkProjLine (tG nm pth gd : List Char) :
    (s2l "Project(\"").isPrefixOf (mkProjLine tG nm pth gd) = true := by
  rw [List.isPrefixOf_iff_prefix]
  have hlit : s2l "Project(\"" = ['P', 'r', 'o', 'j', 'e', 'c', 't', '(', '"'] := rfl
  rw [hlit]
  refine ⟨'\x7b' :: (tG ++ ['\x7d', '"', ')', ' ', '=', ' ', '"'] ++ nm
    ++ ['"', ',', ' ', '"'] ++ pth
    ++ ['"', ',', ' ', '"', '\x7b'] ++ gd ++ ['\x7d', '"']), ?_⟩
  simp [mkProjLine]

theorem parse_project_line_mk (tG nm pth gd : List Char)
    (h1 : okTok tG = true) (h2 : okTok nm = true) (h3 : okTok pth = true)
    (h4 : okTok gd = true) :
    parse_project_line (mkProjLine tG nm pth gd) =
      some { name := nm, path := pth, guid := '\x7b' :: gd ++ ['\x7d'],
             type_guid := tG, packages := [] } := by
  have stG := okTok_spec tG h1
  have snm := okTok_spec nm h2
  have spth := okTok_spec pth h3
  have sgd := okTok_spec gd h4
  have hguid : extract_guid (mkProjLine tG nm pth gd) = some tG := by
    have e : mkProjLine tG nm pth gd
        = ['P', 'r', 'o', 'j', 'e', 'c', 't', '(', '"'] ++ '\x7b' ::
            (tG ++ '\x7d' :: (['"', ')', ' ', '=', ' ', '"'] ++ nm
              ++ ['"', ',', ' ', '"'] ++ pth
              ++ ['"', ',', ' ', '"', '\x7b'] ++ gd ++ ['\x7d', '"'])) := by
      simp [mkProjLine]
    rw [e]
    exact extract_guid_mk _ _ _ (mem_all_ne _ _ (by decide))
      (fun x hx => (stG x hx).2.2.2.2.1)
  have hpreEq : ∀ x ∈ (['P', 'r', 'o', 'j', 'e', 'c', 't', '(', '"', '\x7b'] ++ tG
      ++ ['\x7d', '"', ')', ' ']), x ≠ '=' := by
    refine forall_ne_append _ _ _ (forall_ne_append _ _ _ ?_ ?_) ?_
    · exact mem_all_ne _ _ (by decide)
    · exact fun x hx => (stG x hx).2.2.1
    · exact mem_all_ne _ _ (by decide)
  have hpostEq : ∀ x ∈ ([' ', '"'] ++ nm ++ ['"', ',', ' ', '"'] ++ pth
      ++ ['"', ',', ' ', '"', '\x7b'] ++ gd ++ ['\x7d', '"']), x ≠ '=' := by
    refine forall_ne_append _ _ _ (forall_ne_append _ _ _ (forall_ne_append _ _ _
      (forall_ne_append _ _ _ (forall_ne_append _ _ _ (forall_ne_append _ _ _
        ?_ ?_) ?_) ?_) ?_) ?_) ?_
    · exact mem_all_ne _ _ (by decide)
    · exact fun x hx => (snm x hx).2.2.1
    · exact mem_all_ne _ _ (by decide)
    · exact fun x hx => (spth x hx).2.2.1
    · exact mem_all_ne _ _ (by decide)
    · exact fun x hx => (sgd x hx).2.2.1
    · exact mem_all_ne _ _ (by decide)
  have hsplitEq : splitOnChar '=' (mkProjLine tG nm pth gd)
      = [['P', 'r', 'o', 'j', 'e', 'c', 't', '(', '"', '\x7b'] ++ tG ++ ['\x7d', '"', ')', ' '],
         [' ', '"'] ++ nm ++ ['"', ',', ' ', '"'] ++ pth
           ++ ['"', ',', ' ', '"', '\x7b'] ++ gd ++ ['\x7d', '"']] := by
    have e : mkProjLine tG nm pth gd
        = (['P', 'r', 'o', 'j', 'e', 'c', 't', '(', '"', '\x7b'] ++ tG ++ ['\x7d', '"', ')', ' '])
          ++ '=' :: ([' ', '"'] ++ nm ++ ['"', ',', ' ', '"'] ++ pth
            ++ ['"', ',', ' ', '"', '\x7b'] ++ gd ++ ['\x7d', '"']) := by
      simp [mkProjLine]
    rw [e, splitOnChar_first _ _ _ hpreEq, splitOnChar_no _ _ hpostEq]
  have hp0Comma : ∀ x ∈ ([' ', '"'] ++ nm ++ ['"']), x ≠ ',' := by
    refine forall_ne_append _ _ _ (forall_ne_append _ _ _ ?_ ?_) ?_
    · exact mem_all_ne _ _ (by decide)
    · exact fun x hx => (snm x hx).2.1
    · exact mem_all_ne _ _ (by decide)
  have hp1Comma : ∀ x ∈ ([' ', '"'] ++ pth ++ ['"']), x ≠ ',' := by
    refine forall_ne_append _ _ _ (forall_ne_append _ _ _ ?_ ?_) ?_
    · exact mem_all_ne _ _ (by decide)
    · exact fun x hx => (spth x hx).2.1
    · exact mem_all_ne _ _ (by decide)
  have hp2Comma : ∀ x ∈ ([' ', '"', '\x7b'] ++ gd ++ ['\x7d', '"']), x ≠ ',' := by
    refine forall_ne_append _ _ _ (forall_ne_append _ _ _ ?_ ?_) ?_
    · exact mem_all_ne _ _ (by decide)
    · exact fun x hx => (sgd x hx).2.1
    · exact mem_all_ne _ _ (by decide)
  have hsplitComma : splitOnChar ','
      ([' ', '"'] ++ nm ++ ['"', ',', ' ', '"'] ++ pth
        ++ ['"', ',', ' ', '"', '\x7b'] ++ gd ++ ['\x7d', '"'])
      = [[' ', '"'] ++ nm ++ ['"'],
         [' ', '"'] ++ pth ++ ['"'],
         [' ', '"', '\x7b'] ++ gd ++ ['\x7d', '"']] := by
    have e : [' ', '"'] ++ nm ++ ['"', ',', ' ', '"'] ++ pth
          ++ ['"', ',', ' ', '"', '\x7b'] ++ gd ++ ['\x7d', '"']
        = ([' ', '"'] ++ nm ++ ['"'])
          ++ ',' :: (([' ', '"'] ++ pth ++ ['"'])
            ++ ',' :: ([' ', '"', '\x7b'] ++ gd ++ ['\x7d', '"'])) := by
      simp [List.append_assoc]
    rw [e, splitOnChar_first _ _ _ hp0Comma, splitOnChar_first _ _ _ hp1Comma,
      splitOnChar_no _ _ hp2Comma]
  have hf0 : trimMatchesChar '"' (trimW ([' ', '"'] ++ nm ++ ['"'])) = nm :=
    trim_part_q nm (fun x hx => (snm x hx).1)
  have hf1 : trimMatchesChar '"' (trimW ([' ', '"'] ++ pth ++ ['"'])) = pth :=
    trim_part_q pth (fun x hx => (spth x hx).1)
  have hgQ : ∀ x ∈ ('\x7b' :: gd ++ ['\x7d']), x ≠ '"' := by
    have e : '\x7b' :: gd ++ ['\x7d'] = ['\x7b'] ++ gd ++ ['\x7d'] := by simp
    rw [e]
    refine forall_ne_append _ _ _ (forall_ne_append _ _ _ ?_ ?_) ?_
    · exact mem_all_ne _ _ (by decide)
    · exact fun x hx => (sgd x hx).1
    · exact mem_all_ne _ _ (by decide)
  have hf2 : trimMatchesChar '"' (trimW ([' ', '"', '\x7b'] ++ gd ++ ['\x7d', '"']))
      = '\x7b' :: gd ++ ['\x7d'] := by
    have e : [' ', '"', '\x7b'] ++ gd ++ ['\x7d', '"']
        = [' ', '"'] ++ ('\x7b' :: gd ++ ['\x7d']) ++ ['"'] := by simp
    rw [e]
    exact trim_part_q ('\x7b' :: gd ++ ['\x7d']) hgQ
  unfold parse_project_line
  rw [hguid, hsplitEq]
  simp only [List.get?, hsplitComma, List.map_cons, List.map_nil, hf0, hf1, hf2]

theorem slnStep_fst (st : List SolutionProject × List (List Char) × Option (List Char))
    (l : List Char) :
    (slnStep st l).1 = st.1 ++
      (if (s2l "Project(\"").isPrefixOf (trimW l) then parse_project_line (trimW l)
       else none).toList := by
  simp only [slnStep]
  repeat' split
  all_goals simp_all

theorem slnStep_startup (st : List SolutionProject × List (List Char) × Option (List Char))
    (l : List Char) (h : containsSub (s2l "StartupProject") (trimW l) = false) :
    (slnStep st l).2.2 = st.2.2 := by
  simp only [slnStep, h]
  repeat' split
  all_goals simp_all

theorem foldl_slnStep_fst (ls : List (List Char))
    (st : List SolutionProject × List (List Char) × Option (List Char)) :
    (ls.foldl slnStep st).1 = st.1 ++ ls.filterMap
      (fun l => if (s2l "Project(\"").isPrefixOf (trimW l) then
        parse_project_line (trimW l) else none) := by
  induction ls generalizing st with
  | nil => simp
  | cons a as ih =>
    rw [List.foldl_cons, ih, List.filterMap_cons, slnStep_fst]
    cases hpa : (if (s2l "Project(\"").isPrefixOf (trimW a) then
        parse_project_line (trimW a) else none) with
    | none => simp
    | some p => simp

theorem foldl_slnStep_startup (ls : List (List Char))
    (st : List SolutionProject × List (List Char) × Option (List Char))
    (h : ∀ l ∈ ls, containsSub (s2l "StartupProject") (trimW l) = false) :
    (ls.foldl slnStep st).2.2 = st.2.2 := by
  induction ls generalizing st with
  | nil => rfl
  | cons a as ih =>
    rw [List.foldl_cons, ih _ (fun l hl => h l (by simp [hl])),
      slnStep_startup _ _ (h a (by simp))]

theorem dropTrailingEmpty_cons_cons (a p : List Char) (ps : List (List Char)) :
    dropTrailingEmpty (a :: p :: ps) = a :: dropTrailingEmpty (p :: ps) := by
  unfold dropTrailingEmpty
  rw [List.getLast?_cons_cons]
  cases hL : (p :: ps).getLast? with
  | none => rfl
  | some v =>
    cases v with
    | nil => rfl
    | cons c cs => rfl

theorem dropTrailingEmpty_singleton_ne (l : List Char) (h : l ≠ []) :
    dropTrailingEmpty [l] = [l] := by
  cases l with
  | nil => exact absurd rfl h
  | cons x xs => rfl

theorem linesOf_joinNL (ls : List (List Char))
    (h : ∀ l ∈ ls, ∀ c ∈ l, c ≠ '\n' ∧ c ≠ '\r')
    (hlast : ls.getLast? ≠ some []) :
    linesOf (joinNL ls) = ls := by
  induction ls with
  | nil => rfl
  | cons a tl ih =>
    cases tl with
    | nil =>
      have ha : ∀ c ∈ a, c ≠ '\n' := fun c hc => (h a (by simp) c hc).1
      have haR : ∀ c ∈ a, c ≠ '\r' := fun c hc => (h a (by simp) c hc).2
      have hne : a ≠ [] := by
        intro e
        exact hlast (by simp [e])
      unfold linesOf joinNL
      rw [splitOnChar_no _ _ ha, dropTrailingEmpty_singleton_ne _ hne,
        List.map_cons, List.map_nil, stripCR_of _ haR]
    | cons b tl2 =>
      have ha : ∀ c ∈ a, c ≠ '\n' := fun c hc => (h a (by simp) c hc).1
      have haR : ∀ c ∈ a, c ≠ '\r' := fun c hc => (h a (by simp) c hc).2
      have hlast2 : (b :: tl2).getLast? ≠ some [] := by
        intro e
        apply hlast
        rw [List.getLast?_cons_cons]
        exact e
      have ih2 := ih (fun l hl c hc => h l (by simp [hl]) c hc) hlast2
      have hjoin : joinNL (a :: b :: tl2) = a ++ '\n' :: joinNL (b :: tl2) := by
        simp [joinNL]
      obtain ⟨p, ps, hP⟩ :=
        List.exists_cons_of_ne_nil (splitOnChar_ne_nil '\n' (joinNL (b :: tl2)))
      unfold linesOf at ih2 ⊢
      rw [hjoin, splitOnChar_first _ _ _ ha, hP, dropTrailingEmpty_cons_cons,
        List.map_cons, stripCR_of _ haR]
      rw [hP] at ih2
      rw [ih2]

theorem find?_guid_head (p : SolutionProject) (rest : List SolutionProject) :
    List.find? (fun q => q.guid == p.guid) (p :: rest) = some p :=
  List.find?_cons_of_pos _ (by simp)

theorem mkProjLine_no_nl (tG nm pth gd : List Char)
    (h1 : okTok tG = true) (h2 : okTok nm = true) (h3 : okTok pth = true)
    (h4 : okTok gd = true) :
    ∀ c ∈ mkProjLine tG nm pth gd, c ≠ '\n' ∧ c ≠ '\r' := by
  intro c hc
  refine ⟨fun he => ?_, fun he => ?_⟩
  · subst he
    simp [mkProjLine] at hc
    rcases hc with h | h | h | h
    · exact absurd rfl ((okTok_spec _ h1 _ h).2.2.2.2.2.1)
    · exact absurd rfl ((okTok_spec _ h2 _ h).2.2.2.2.2.1)
    · exact absurd rfl ((okTok_spec _ h3 _ h).2.2.2.2.2.1)
    · exact absurd rfl ((okTok_spec _ h4 _ h).2.2.2.2.2.1)
  · subst he
    simp [mkProjLine] at hc
    rcases hc with h | h | h | h
    · exact absurd rfl ((okTok_spec _ h1 _ h).2.2.2.2.2.2)
    · exact absurd rfl ((okTok_spec _ h2 _ h).2.2.2.2.2.2)
    · exact absurd rfl ((okTok_spec _ h3 _ h).2.2.2.2.2.2)
    · exact absurd rfl ((okTok_spec _ h4 _ h).2.2.2.2.2.2)

theorem renderLine_no_nl (d : SlnLine) (h : lineOk d = true) :
    ∀ c ∈ renderLine d, c ≠ '\n' ∧ c ≠ '\r' := by
  cases d with
  | decl tG nm pth gd =>
    simp only [lineOk, Bool.and_eq_true] at h
    exact mkProjLine_no_nl tG nm pth gd h.1.1.1 h.1.1.2 h.1.2 h.2
  | other l =>
    simp only [lineOk, Bool.and_eq_true] at h
    intro c hc
    have h2 := List.all_eq_true.mp h.1 c hc
    simp only [decide_eq_true_eq] at h2
    push_neg at h2
    exact h2

theorem declParse_renderLine (d : SlnLine) (h : lineOk d = true) :
    (if (s2l "Project(\"").isPrefixOf (trimW (renderLine d)) then
      parse_project_line (trimW (renderLine d)) else none) = declProject d := by
  cases d with
  | decl tG nm pth gd =>
    simp only [lineOk, Bool.and_eq_true] at h
    obtain ⟨⟨⟨h1, h2⟩, h3⟩, h4⟩ := h
    simp only [renderLine]
    rw [trimW_mkProjLine, if_pos (startsWith_mkProjLine tG nm pth gd),
      parse_project_line_mk tG nm pth gd h1 h2 h3 h4]
    rfl
  | other l =>
    simp only [lineOk, Bool.and_eq_true] at h
    simp only [renderLine]
    rw [if_neg (of_decide_eq_true h.2)]
    rfl

/-- C2 (amended): a legacy solution text of canonical project-declaration
lines and non-declaration lines parses to exactly the declared projects, in
declaration order; each stored identifier is the entire brace-delimited
token of its line, braces included. -/
theorem c2_decl_lines_projects (ds : List SlnLine) (base : List Char)
    (hok : ∀ d ∈ ds, lineOk d = true)
    (hlast : (ds.map renderLine).getLast? ≠ some []) :
    (parse_sln (joinNL (ds.map renderLine)) base).projects = ds.filterMap declProject := by
  have hlines : linesOf (joinNL (ds.map renderLine)) = ds.map renderLine := by
    refine linesOf_joinNL _ ?_ hlast
    intro l hl
    obtain ⟨d, hd, rfl⟩ := List.mem_map.mp hl
    exact renderLine_no_nl d (hok d hd)
  have hproj : (parse_sln (joinNL (ds.map renderLine)) base).projects
      = ((linesOf (joinNL (ds.map renderLine))).foldl slnStep ([], [], none)).1 := rfl
  rw [hproj, hlines, foldl_slnStep_fst]
  rw [List.filterMap_map]
  apply List.filterMap_congr
  intro d hd
  exact declParse_renderLine d (hok d hd)

/-- Lines for the C2 witness: two canonical declarations around one
non-declaration line. -/
def c2wDs : List SlnLine :=
  [.decl (s2l "T1") (s2l "App") (s2l "App.csproj") (s2l "AAAA"),
   .other (s2l "Global"),
   .decl (s2l "T2") (s2l "Lib") (s2l "Lib/Lib.csproj") (s2l "BBBB")]

theorem c2_witness :
    (parse_sln (joinNL (c2wDs.map renderLine)) []).projects
      = c2wDs.filterMap declProject :=
  c2_decl_lines_projects c2wDs [] (by decide) (by decide)

/-- Concrete legacy declaration line whose brace-delimited identifier token
is `\x7bAAAA\x7d`. -/
def c2content : List Char :=
  s2l "Project(\"\x7bT1\x7d\") = \"App\", \"App.csproj\", \"\x7bAAAA\x7d\""

/-- C2 (counterexample): the stored identifier keeps the surrounding
braces, so it is not the identifier `AAAA` given inside the braces. -/
theorem c2_braces_kept :
    (parse_sln c2content []).projects.map (fun p => p.guid) = [s2l "\x7bAAAA\x7d"]
    ∧ s2l "\x7bAAAA\x7d" ≠ s2l "AAAA" :=
  ⟨rfl, by decide⟩

/-- C1 (amended): when `startup_project` is set by the default
first-declared-project rule — no startup-marker line in the legacy dialect,
always in the markup dialect — `get_startup_project` returns a project of
the same solution whose identifier equals the stored value.  (With an
explicit marker line the value is stored brace-stripped while legacy
project identifiers keep their braces, so the dereference can fail.) -/
theorem c1_default_startup_resolves (hg : List Char → List Char)
    (content base : List Char) (sol : SolutionFile) (g : List Char) :
    ((∀ l ∈ linesOf content, containsSub (s2l "StartupProject") (trimW l) = false) →
      (parse_sln content base).startup_project = some g →
      ∃ p, get_startup_project (parse_sln content base) = some p ∧ p.guid = g)
    ∧ (parse_slnx hg content base = .ok sol → sol.startup_project = some g →
      ∃ p, get_startup_project sol = some p ∧ p.guid = g) := by
  constructor
  · intro hno hsu
    have hstf : ((linesOf content).foldl slnStep ([], [], none)).2.2 = none :=
      foldl_slnStep_startup _ _ hno
    simp only [parse_sln, get_startup_project, get_project_by_guid] at hsu ⊢
    set st := (linesOf content).foldl slnStep ([], [], none) with hstEq
    clear_value st
    obtain ⟨ps, cs, su⟩ := st
    simp only at hstf
    subst hstf
    cases ps with
    | nil => simp at hsu
    | cons p rest =>
      have hpg : p.guid = g := by simpa using hsu
      refine ⟨p, ?_, hpg⟩
      subst hpg
      simp [find?_guid_head p rest]
  · intro hok hsu
    unfold parse_slnx at hok
    cases hsl : slnxLoop hg (content.length + 1) content with
    | error e =>
      rw [hsl] at hok
      exact absurd hok (by simp)
    | ok projects =>
      rw [hsl] at hok
      simp only at hok
      have hsol := Except.ok.inj hok
      subst hsol
      cases projects with
      | nil => simp at hsu
      | cons p rest =>
        have hpg : p.guid = g := by simpa using hsu
        refine ⟨p, ?_, hpg⟩
        subst hpg
        simp only [get_startup_project, get_project_by_guid]
        simp [find?_guid_head p rest]

/-- Legacy solution text with one project and an explicit startup-project
marker line naming that project's GUID. -/
def c1content : List Char :=
  s2l "Project(\"\x7bT\x7d\") = \"App\", \"App.csproj\", \"\x7bAAAA\x7d\"\nStartupProject = \x7bAAAA\x7d"

/-- The solution `parse` produces for `c1content`. -/
def c1sol : SolutionFile := parse_sln c1content []

/-- C1 (counterexample): with an explicit startup-project marker,
`startup_project` is set but `get_startup_project()` returns no project —
the stored value is brace-stripped while the project identifier keeps its
braces. -/
theorem c1_marker_startup_dangles :
    parse (fun _ => []) c1content [] = .ok c1sol
    ∧ c1sol.startup_project = some (s2l "AAAA")
    ∧ get_startup_project c1sol = none :=
  ⟨rfl, rfl, rfl⟩

/-- Legacy solution text with one project and no startup marker. -/
def c1wSlnContent : List Char :=
  s2l "Project(\"\x7bT\x7d\") = \"App\", \"App.csproj\", \"\x7bAAAA\x7d\""

/-- Markup solution text with one project element. -/
def c1wSlnxContent : List Char :=
  s2l "<Solution><Project Path=\"App/App.csproj\" /></Solution>"

/-- The solution `parse_slnx` produces for `c1wSlnxContent` under the
constant hasher. -/
def c1wSlnxSol : SolutionFile :=
  { path := s2l "solution.slnx",
    projects := [{ name := s2l "App", path := s2l "App/App.csproj", guid := s2l "g1",
                   type_guid := s2l "FAE04EC0-301F-11D3-BA7A-00C04FC2CCAE",
                   packages := [] }],
    configurations := [s2l "Debug", s2l "Release"],
    startup_project := some (s2l "g1") }

theorem c1_default_startup_witness :
    (∃ p, get_startup_project (parse_sln c1wSlnContent []) = some p
      ∧ p.guid = s2l "\x7bAAAA\x7d")
    ∧ (∃ p, get_startup_project c1wSlnxSol = some p ∧ p.guid = s2l "g1") :=
  ⟨(c1_default_startup_resolves (fun _ => s2l "g1") c1wSlnContent [] c1wSlnxSol
      (s2l "\x7bAAAA\x7d")).1 (by decide) rfl,
   (c1_default_startup_resolves (fun _ => s2l "g1") c1wSlnxContent [] c1wSlnxSol
      (s2l "g1")).2 rfl rfl⟩

/-- C3 (amended): the scanner terminates an entry at the first self-closing
marker whenever one occurs anywhere after the opening tag — even past a
nearer explicit closing tag — and uses the first explicit closing tag only
when no self-closing marker occurs at all. -/
theorem c3_terminator_fallback (content : List Char) :
    parse_csproj_packages content
      = csprojScan selfCloseElseClosing (content.length + 1) content := by
  have hfun : findTerminatorCsproj = selfCloseElseClosing := by
    funext sub
    unfold findTerminatorCsproj selfCloseElseClosing
    cases h : findSub (s2l "/>") sub with
    | none => simp [h]
    | some a => simp [h]
  unfold parse_csproj_packages
  rw [hfun]

/-- A project markup with one empty dependency entry closed by an explicit
closing tag, followed by an unrelated self-closing element. -/
def c3content : List Char :=
  s2l "<PackageReference></PackageReference><Y Include=\"B\"/>"

/-- C3 (counterexample): on `c3content` the nearer terminator of the entry
is the explicit closing tag, yet the code scans on to the later `/>` of the
unrelated element and harvests its `Include` attribute — the nearer-first
reading yields no package. -/
theorem c3_not_nearer :
    parse_csproj_packages c3content = .ok [{ id := s2l "B", version := none }]
    ∧ csprojScan nearerTerminator (c3content.length + 1) c3content = .ok []
    ∧ parse_csproj_packages c3content
        ≠ csprojScan nearerTerminator (c3content.length + 1) c3content := by
  refine ⟨rfl, rfl, ?_⟩
  intro h
  rw [show parse_csproj_packages c3content
      = .ok [{ id := s2l "B", version := none }] from rfl] at h
  rw [show csprojScan nearerTerminator (c3content.length + 1) c3content
      = .ok [] from rfl] at h
  exact absurd (Except.ok.inj h) (by decide)

theorem findSome?_of_first {α β : Type} (f : α → Option β) (l : List α) (i : Nat)
    (x : α) (y : β) (hget : l.get? i = some x) (hx : f x = some y)
    (hbefore : ∀ j, j < i → ∀ z, l.get? j = some z → f z = none) :
    l.findSome? f = some y := by
  induction l generalizing i with
  | nil => simp at hget
  | cons a as ih =>
    cases i with
    | zero =>
      have ha : a = x := by simpa using hget
      subst ha
      simp [List.findSome?_cons, hx]
    | succ n =>
      have hfa : f a = none := hbefore 0 (Nat.succ_pos n) a rfl
      simp only [List.findSome?_cons, hfa]
      exact ih n hget (fun j hj z hz => hbefore (j + 1) (Nat.succ_lt_succ hj) z hz)

/-- C4: when the build succeeds and line `i` of stdout is the first line
whose arrow-marker candidate (trimmed, `.dll`/`.exe`-suffixed, resolved
against the working directory, existing on disk) is `p`, `run()` returns a
launch request whose program is exactly `p`. -/
theorem c4_first_arrow_line_is_program (fs : Fs)
    (spawn : List (List Char) → Option ProcOut) (task : SpawnInTerminalM)
    (cwd : List Char) (pr : ProcOut) (i : Nat) (line p : List Char)
    (hcwd : task.cwd = some cwd)
    (hspawn : spawn (buildArgs task.args) = some pr)
    (hsucc : pr.success = true)
    (hline : (linesOf pr.stdout).get? i = some line)
    (hcand : arrowCandidate fs cwd line = some p)
    (hfirst : ∀ j, j < i → ∀ l, (linesOf pr.stdout).get? j = some l →
      arrowCandidate fs cwd l = none) :
    runLocator fs spawn task = .ok (.launch p (some cwd) [] []) := by
  have hfind : (linesOf pr.stdout).findSome? (arrowCandidate fs cwd) = some p :=
    findSome?_of_first _ _ i line p hline hcand hfirst
  unfold runLocator
  rw [hcwd, hspawn]
  simp only [hsucc, if_true]
  unfold find_dotnet_output_assembly
  rw [hfind]

/-- Filesystem oracle for the C4 witness: exactly one file exists. -/
def c4fs : Fs :=
  { fileExists := fun q => q == s2l "/abs/path/bin/Debug/net8.0/MyApp.dll",
    readDir := fun _ => none }

/-- Task input for the C4 witness. -/
def c4task : SpawnInTerminalM := { cwd := some (s2l "/work"), args := [], env := [] }

/-- Build outcome for the C4 witness: success, one arrow line. -/
def c4pr : ProcOut :=
  { success := true, exitCode := some 0,
    stdout := s2l "MyApp -> /abs/path/bin/Debug/net8.0/MyApp.dll", stderr := [] }

theorem c4_witness :
    runLocator c4fs (fun _ => some c4pr) c4task
      = .ok (.launch (s2l "/abs/path/bin/Debug/net8.0/MyApp.dll")
          (some (s2l "/work")) [] []) :=
  c4_first_arrow_line_is_program c4fs (fun _ => some c4pr) c4task (s2l "/work") c4pr 0
    (s2l "MyApp -> /abs/path/bin/Debug/net8.0/MyApp.dll")
    (s2l "/abs/path/bin/Debug/net8.0/MyApp.dll")
    rfl rfl rfl rfl rfl
    (fun j hj => absurd hj (Nat.not_lt_zero j))

/-- C5: a spawned build that exits unsuccessfully makes `run()` fail with an
error containing the captured stderr text. -/
theorem c5_build_failure_carries_stderr (fs : Fs)
    (spawn : List (List Char) → Option ProcOut) (task : SpawnInTerminalM)
    (cwd : List Char) (pr : ProcOut)
    (hcwd : task.cwd = some cwd)
    (hspawn : spawn (buildArgs task.args) = some pr)
    (hfail : pr.success = false) :
    ∃ e, runLocator fs spawn task = .error e
      ∧ ∃ l r, e = l ++ pr.stderr ++ r := by
  refine ⟨s2l "dotnet build failed with exit code " ++ fmtExitCode pr.exitCode
      ++ s2l "\nstderr: " ++ pr.stderr, ?_,
    s2l "dotnet build failed with exit code " ++ fmtExitCode pr.exitCode
      ++ s2l "\nstderr: ", [], by simp⟩
  unfold runLocator
  rw [hcwd, hspawn]
  simp [hfail]

/-- Build outcome for the C5 witness: failure with captured stderr. -/
def c5pr : ProcOut :=
  { success := false, exitCode := some 1, stdout := [], stderr := s2l "boom" }

theorem c5_witness :
    ∃ e, runLocator c4fs (fun _ => some c5pr) c4task = .error e
      ∧ ∃ l r, e = l ++ c5pr.stderr ++ r :=
  c5_build_failure_carries_stderr c4fs (fun _ => some c5pr) c4task
    (s2l "/work") c5pr rfl rfl rfl

theorem getK_append_ne (m : Cfg) (k k' : List Char) (v : JVal)
    (h : (k' == k) = false) : getK (m ++ [(k', v)]) k = getK m k := by
  induction m with
  | nil => simp [getK, List.find?, h]
  | cons a as ih =>
    unfold getK at ih ⊢
    rw [List.cons_append]
    by_cases hak : (a.1 == k) = true
    · rw [@List.find?_cons_of_pos _ (fun kv => kv.1 == k) a (as ++ [(k', v)]) hak,
        @List.find?_cons_of_pos _ (fun kv => kv.1 == k) a as hak]
    · rw [@List.find?_cons_of_neg _ (fun kv => kv.1 == k) a (as ++ [(k', v)]) hak,
        @List.find?_cons_of_neg _ (fun kv => kv.1 == k) a as hak]
      exact ih

/-- C6: `request_args` fails exactly when the resolved request kind is
launch and the configuration map has no `program` entry; an attach request
succeeds with no `program` entry. -/
theorem c6_program_required_iff_launch (m : Cfg) :
    ((∃ e, request_args m = .error e) ↔
      (requestKindOf m = .launch ∧ getK m (s2l "program") = none))
    ∧ (requestKindOf m = .attach → ∃ cfg, request_args m = .ok (cfg, .attach)) := by
  have hprog : getK (if (getK m (s2l "console")).isNone then
      m ++ [(s2l "console", JVal.str (s2l "integratedTerminal"))] else m)
      (s2l "program") = getK m (s2l "program") := by
    split
    · exact getK_append_ne m _ _ _ (by decide)
    · rfl
  simp only [request_args]
  rw [hprog]
  by_cases h : requestKindOf m = RequestKind.launch ∧ getK m (s2l "program") = none
  · rw [if_pos h]
    refine ⟨⟨fun _ => h, fun _ => ⟨_, rfl⟩⟩, ?_⟩
    intro ha
    rw [ha] at h
    exact absurd h.1 (by simp)
  · rw [if_neg h]
    refine ⟨⟨?_, fun hc => absurd hc h⟩, ?_⟩
    · rintro ⟨e, he⟩
      exact absurd he (by simp)
    · intro ha
      rw [ha]
      exact ⟨_, rfl⟩

/-- Attach-request map for the C6 witness: no `program` entry. -/
def c6attachMap : Cfg :=
  [(s2l "request", JVal.str (s2l "attach")), (s2l "processId", JVal.num 1234)]

/-- Launch-request map for the C6 witness: no `program` entry. -/
def c6launchMap : Cfg := [(s2l "type", JVal.str (s2l "coreclr"))]

theorem c6_witness :
    (∃ e, request_args c6launchMap = .error e)
    ∧ (∃ cfg, request_args c6attachMap = .ok (cfg, .attach)) :=
  ⟨(c6_program_required_iff_launch c6launchMap).1.mpr ⟨rfl, rfl⟩,
   (c6_program_required_iff_launch c6attachMap).2 rfl⟩

/-- C7: `create_scenario` yields no scenario for a non-`dotnet` command,
for a first argument outside `run`/`r`/`build`/`test`, and for `test`
without a literal `--no-build` flag. -/
theorem c7_reject_conditions (t : TaskTemplateM) (l ad : List Char) :
    (t.command ≠ s2l "dotnet" → create_scenario t l ad = none)
    ∧ (∀ a rest, t.args = a :: rest →
        a ∉ [s2l "run", s2l "r", s2l "build", s2l "test"] →
        create_scenario t l ad = none)
    ∧ (∀ a rest, t.args = a :: rest → a = s2l "test" →
        (a :: rest).contains (s2l "--no-build") = false →
        create_scenario t l ad = none) := by
  refine ⟨?_, ?_, ?_⟩
  · intro h
    unfold create_scenario
    rw [if_pos h]
  · intro a rest hargs hnotin
    unfold create_scenario
    by_cases hcmd : t.command ≠ s2l "dotnet"
    · rw [if_pos hcmd]
    · rw [if_neg hcmd, hargs]
      simp only [List.mem_cons, List.not_mem_nil, or_false, not_or] at hnotin
      obtain ⟨h1, h2, h3, h4⟩ := hnotin
      simp only [if_neg (by tauto : ¬(a = s2l "run" ∨ a = s2l "r")),
        if_neg h4, if_neg h3]
  · intro a rest hargs ha hnb
    unfold create_scenario
    by_cases hcmd : t.command ≠ s2l "dotnet"
    · rw [if_pos hcmd]
    · rw [if_neg hcmd, hargs]
      subst ha
      dsimp only
      rw [if_neg (by decide : ¬(s2l "test" = s2l "run" ∨ s2l "test" = s2l "r")),
        if_pos (rfl : s2l "test" = s2l "test"), hnb]
      simp

/-- Template for the C7 witness: wrong command. -/
def c7tmplA : TaskTemplateM :=
  { label := s2l "cargo: run", command := s2l "cargo", args := [s2l "run"],
    env := [], cwd := none }

/-- Template for the C7 witness: `clean` action. -/
def c7tmplB : TaskTemplateM :=
  { label := s2l "dotnet: clean", command := s2l "dotnet", args := [s2l "clean"],
    env := [], cwd := none }

/-- Template for the C7 witness: `test` without `--no-build`. -/
def c7tmplC : TaskTemplateM :=
  { label := s2l "dotnet: test", command := s2l "dotnet", args := [s2l "test"],
    env := [], cwd := none }

theorem c7_witness :
    create_scenario c7tmplA (s2l "L") (s2l "A") = none
    ∧ create_scenario c7tmplB (s2l "L") (s2l "A") = none
    ∧ create_scenario c7tmplC (s2l "L") (s2l "A") = none :=
  ⟨(c7_reject_conditions c7tmplA (s2l "L") (s2l "A")).1 (by decide),
   (c7_reject_conditions c7tmplB (s2l "L") (s2l "A")).2.1 (s2l "clean") [] rfl
     (by decide),
   (c7_reject_conditions c7tmplC (s2l "L") (s2l "A")).2.2 (s2l "test") [] rfl rfl
     rfl⟩

/-- C8: accepting a `run`/`r` template rewrites only the action token to
`build`; the emitted scenario's build template keeps the command, every
other argument, and all remaining fields of the input template. -/
theorem c8_run_rewrites_only_action (t : TaskTemplateM) (l ad : List Char)
    (a : List Char) (rest : List (List Char))
    (hcmd : t.command = s2l "dotnet")
    (hargs : t.args = a :: rest)
    (ha : a = s2l "run" ∨ a = s2l "r") :
    ∃ sc, create_scenario t l ad = some sc
      ∧ sc.buildTemplate = some
          (TaskTemplateM.mk t.label t.command (s2l "build" :: rest) t.env t.cwd,
            some (s2l "dotnet-locator"))
      ∧ sc.adapter = ad ∧ sc.label = l ∧ sc.config = scenarioConfigStub
      ∧ sc.tcpConnection = none := by
  unfold create_scenario
  rw [if_neg (by simp [hcmd]), hargs]
  dsimp only
  rw [if_pos ha]
  exact ⟨_, rfl, rfl, rfl, rfl, rfl, rfl⟩

/-- Template for the C8 witness: a `dotnet run` task with extra arguments
and fields. -/
def c8tmpl : TaskTemplateM :=
  { label := s2l "dotnet: run", command := s2l "dotnet",
    args := [s2l "run", s2l "--project", s2l "Foo"],
    env := [(s2l "K", s2l "V")], cwd := some (s2l "/w") }

theorem c8_witness :
    ∃ sc, create_scenario c8tmpl (s2l "L") (s2l "A") = some sc
      ∧ sc.buildTemplate = some
          (TaskTemplateM.mk c8tmpl.label c8tmpl.command
            (s2l "build" :: [s2l "--project", s2l "Foo"]) c8tmpl.env c8tmpl.cwd,
            some (s2l "dotnet-locator"))
      ∧ sc.adapter = s2l "A" ∧ sc.label = s2l "L" ∧ sc.config = scenarioConfigStub
      ∧ sc.tcpConnection = none :=
  c8_run_rewrites_only_action c8tmpl (s2l "L") (s2l "A") (s2l "run")
    [s2l "--project", s2l "Foo"] rfl rfl (Or.inl rfl)

/-- C9: the `run()` body is straight-line awaits — the stderr drain begins
only after the stdout drain has completed, and the exit status is awaited
after both; nothing runs the two drains concurrently. -/
theorem c9_sequential_drain :
    runAwaitSequence.indexOf RunPhase.drainStdoutToEof
        < runAwaitSequence.indexOf RunPhase.drainStderrToEof
    ∧ runAwaitSequence.indexOf RunPhase.drainStderrToEof
        < runAwaitSequence.indexOf RunPhase.awaitExitStatus := by
  decide

/-- C10: the vsdbg path cell caches success only — a cached path is
returned as-is with no probe, a successful probe fills the cell, a failed
probe leaves the cell uninitialized and every call against an empty cell
probes again, and after a success every later call returns that same path
without probing. -/
theorem c10_cache_success_only (p e : List Char)
    (f : Except (List Char) (List Char))
    (fs : List (Except (List Char) (List Char)))
    (cell : Option (List Char)) :
    vsdbgStep (some p) f = (.ok p, some p, false)
    ∧ vsdbgStep none (.error e) = (.error e, none, true)
    ∧ (vsdbgStep none f).2.2 = true
    ∧ ((vsdbgStep cell f).1 = .ok p → (vsdbgStep cell f).2.1 = some p)
    ∧ (∀ r ∈ (vsdbgCalls (some p) fs).1, r = (.ok p, false)) := by
  refine ⟨rfl, rfl, ?_, ?_, ?_⟩
  · cases f <;> rfl
  · cases cell with
    | some q =>
      intro h
      simp only [vsdbgStep, Except.ok.injEq] at h
      simp [vsdbgStep, h]
    | none =>
      cases f with
      | ok q =>
        intro h
        simp only [vsdbgStep, Except.ok.injEq] at h
        simp [vsdbgStep, h]
      | error er =>
        intro h
        simp [vsdbgStep] at h
  · induction fs with
    | nil =>
      intro r hr
      simp [vsdbgCalls] at hr
    | cons f1 fs1 ih =>
      intro r hr
      simp only [vsdbgCalls, vsdbgStep] at hr
      rcases List.mem_cons.mp hr with rfl | hr2
      · rfl
      · exact ih r hr2

theorem c10_witness :
    vsdbgStep (some (s2l "/usr/bin/vsdbg")) (.error (s2l "gone"))
        = (.ok (s2l "/usr/bin/vsdbg"), some (s2l "/usr/bin/vsdbg"), false)
    ∧ vsdbgStep none (.error (s2l "not found"))
        = (.error (s2l "not found"), none, true)
    ∧ (vsdbgStep none (.ok (s2l "/cache/vsdbg"))).2.1 = some (s2l "/cache/vsdbg")
    ∧ (∀ r ∈ (vsdbgCalls (some (s2l "/usr/bin/vsdbg"))
        [.error (s2l "x"), .ok (s2l "/other")]).1,
        r = (.ok (s2l "/usr/bin/vsdbg"), false)) :=
  ⟨(c10_cache_success_only (s2l "/usr/bin/vsdbg") (s2l "gone")
      (.error (s2l "gone")) [] none).1,
   (c10_cache_success_only (s2l "/usr/bin/vsdbg") (s2l "not found")
      (.error (s2l "not found")) [] none).2.1,
   (c10_cache_success_only (s2l "/cache/vsdbg") (s2l "e")
      (.ok (s2l "/cache/vsdbg")) [] none).2.2.2.1 rfl,
   (c10_cache_success_only (s2l "/usr/bin/vsdbg") (s2l "e")
      (.error (s2l "x")) [.error (s2l "x"), .ok (s2l "/other")] none).2.2.2.2⟩

end DotnetPipeline
